import Mathlib

/-
Verification development for the SupplyProv_FHE repository.

The repository ships a React frontend (src/frontend/web/src/App.tsx) that
drives a confidential record lifecycle: records are created with an
FHE-encrypted secret value and later pass through an asynchronous
decrypt-and-verify protocol.  The on-chain contract and the
confidential-compute provider are not part of src/, so they are modelled
from the design document (RecordStore §4.1, ConfidentialComputeProvider
§4.2, VerificationCoordinator §4.3); the frontend functions
(createSupplyChainItem, decryptItemData, loadSupplyChainData and the
CreateItemModal input handling) are embedded directly from App.tsx.
-/

namespace SupplyProv

/-- Lifecycle status of a record, per the data model (spec §3). -/
inductive Status where
  | Created
  | VerificationPending
  | Verified
  deriving DecidableEq, Repr

/-- Numeric rank of a status along the forward chain. -/
def Status.rank : Status → Nat
  | Status.Created => 0
  | Status.VerificationPending => 1
  | Status.Verified => 2

/-- A status transition is forward-only: it stays in place or advances by
exactly one stage along Created → VerificationPending → Verified. -/
def forwardOk : Status → Status → Bool
  | Status.Created, Status.Created => true
  | Status.Created, Status.VerificationPending => true
  | Status.VerificationPending, Status.VerificationPending => true
  | Status.VerificationPending, Status.Verified => true
  | Status.Verified, Status.Verified => true
  | _, _ => false

/-- Modelled from the spec: the Record of §3, with the public attributes
laid out as the contract fields the frontend reads (name, description,
publicValue1 = lifecycle tag, publicValue2). -/
structure Record where
  id : String
  creator : String
  name : String
  description : String
  publicValue1 : Nat
  publicValue2 : Nat
  ciphertextHandle : Nat
  status : Status
  clearValue : Option Nat
  version : Nat
  createdAt : Nat
  deriving DecidableEq, Repr

/-- Modelled from the spec: errors of the compare-and-set primitive (§4.1). -/
inductive CasError where
  | VersionConflict (current : Record)
  | InvalidTransition (current : Record)
  | NotFound
  deriving DecidableEq, Repr

/-- Modelled from the spec: error on id collision at insert (§4.1, §7). -/
inductive StoreError where
  | ConflictError
  deriving DecidableEq, Repr

/-- Modelled from the spec: the RecordStore of §4.1, an authoritative
versioned table of records. -/
abbrev RecordStore : Type := List Record

/-- Read-only snapshot lookup, the get operation of §4.1. -/
def RecordStore.get : RecordStore → String → Option Record
  | [], _ => none
  | r :: rs, i => if r.id = i then some r else RecordStore.get rs i

/-- Replace the (first) record with the same id. -/
def updateRecord : RecordStore → Record → RecordStore
  | [], _ => []
  | r :: rs, q => if r.id = q.id then q :: rs else r :: updateRecord rs q

/-- Modelled from the spec: insert of §4.1 — fails if the id already
exists, otherwise stores at version 0 and status Created. -/
def RecordStore.insert (s : RecordStore) (r : Record) :
    RecordStore × Except StoreError String :=
  match RecordStore.get s r.id with
  | some _ => (s, Except.error StoreError.ConflictError)
  | none =>
      ({ r with version := 0, status := Status.Created } :: s, Except.ok r.id)

/-- The record produced by an accepted mutation: new status and
clearValue, version incremented by one; all other fields unchanged. -/
def casResultRecord (q : Record) (sc : Status × Option Nat) : Record :=
  { q with status := sc.fst, clearValue := sc.snd, version := q.version + 1 }

/-- Modelled from the spec: compareAndSet of §4.1 — atomically applies a
pure mutation producing a new status/clearValue, only if the stored
version equals the expected version and the resulting status transition
is forward-only; on success increments the version; on version mismatch
returns VersionConflict carrying the current record. -/
def RecordStore.compareAndSet (s : RecordStore) (i : String)
    (expectedVersion : Nat) (m : Record → Status × Option Nat) :
    RecordStore × Except CasError Record :=
  match RecordStore.get s i with
  | none => (s, Except.error CasError.NotFound)
  | some r =>
      if r.version ≠ expectedVersion then
        (s, Except.error (CasError.VersionConflict r))
      else
        if forwardOk r.status (m r).fst then
          (updateRecord s (casResultRecord r (m r)),
           Except.ok (casResultRecord r (m r)))
        else
          (s, Except.error (CasError.InvalidTransition r))

/-- One attempted mutation: target id, expected version, mutation. -/
def CasOp : Type := String × Nat × (Record → Status × Option Nat)

/-- The store left by one attempted compare-and-set. -/
def casFst (s : RecordStore) (op : CasOp) : RecordStore :=
  (RecordStore.compareAndSet s op.1 op.2.1 op.2.2).1

/-- The store left by a sequence of attempted compare-and-set calls. -/
def applyOps (s : RecordStore) (ops : List CasOp) : RecordStore :=
  ops.foldl casFst s

lemma forwardOk_rank_le {a b : Status} (h : forwardOk a b = true) :
    Status.rank a ≤ Status.rank b := by
  cases a <;> cases b <;> simp_all [forwardOk, Status.rank]

lemma forwardOk_rank_succ {a b : Status} (h : forwardOk a b = true) :
    Status.rank b ≤ Status.rank a + 1 := by
  cases a <;> cases b <;> simp_all [forwardOk, Status.rank]

lemma get_some_id : ∀ (s : RecordStore) (i : String) (r : Record),
    RecordStore.get s i = some r → r.id = i := by
  intro s
  induction s with
  | nil => intro i r h; simp [RecordStore.get] at h
  | cons a rs ih =>
      intro i r h
      by_cases hid : a.id = i
      · simp [RecordStore.get, hid] at h
        rw [← h, hid]
      · simp [RecordStore.get, hid] at h
        exact ih i r h

lemma get_update_of_get : ∀ (s : RecordStore) (q r' : Record),
    RecordStore.get s r'.id = some q →
    RecordStore.get (updateRecord s r') r'.id = some r' := by
  intro s
  induction s with
  | nil => intro q r' h; simp [RecordStore.get] at h
  | cons a rs ih =>
      intro q r' h
      by_cases hid : a.id = r'.id
      · simp [updateRecord, hid, RecordStore.get]
      · simp [updateRecord, hid, RecordStore.get] at h ⊢
        exact ih q r' h

lemma get_update_ne : ∀ (s : RecordStore) (r' : Record) (i : String),
    r'.id ≠ i →
    RecordStore.get (updateRecord s r') i = RecordStore.get s i := by
  intro s
  induction s with
  | nil => intro r' i _; rfl
  | cons a rs ih =>
      intro r' i hne
      by_cases hid : a.id = r'.id
      · have hai : a.id ≠ i := by rw [hid]; exact hne
        simp [updateRecord, hid, RecordStore.get, hne, hai]
      · simp [updateRecord, hid, RecordStore.get]
        by_cases h2 : a.id = i
        · simp [h2]
        · simp [h2]; exact ih r' i hne

lemma cas_get_mono (s : RecordStore) (op : CasOp) (i : String) (r : Record)
    (h : RecordStore.get s i = some r) :
    ∃ r', RecordStore.get (casFst s op) i = some r' ∧
      Status.rank r.status ≤ Status.rank r'.status := by
  unfold casFst RecordStore.compareAndSet
  cases hq : RecordStore.get s op.1 with
  | none => exact ⟨r, by simp [h], le_refl _⟩
  | some q =>
      have hqid : q.id = op.1 := get_some_id s op.1 q hq
      by_cases hv : q.version ≠ op.2.1
      · exact ⟨r, by simp [hv, h], le_refl _⟩
      · by_cases hf : forwardOk q.status (op.2.2 q).fst = true
        · by_cases hii : op.1 = i
          · have hqr : q = r := by
              rw [hii] at hq
              rw [hq] at h
              exact Option.some.inj h
            refine ⟨casResultRecord q (op.2.2 q), ?_, ?_⟩
            · have hbase : RecordStore.get s
                  (casResultRecord q (op.2.2 q)).id = some q := by
                show RecordStore.get s q.id = some q
                rw [hqid]; exact hq
              have hupd := get_update_of_get s q
                (casResultRecord q (op.2.2 q)) hbase
              have hcid : (casResultRecord q (op.2.2 q)).id = i := by
                show q.id = i
                rw [hqid]; exact hii
              rw [hcid] at hupd
              simpa [hv, hf] using hupd
            · rw [← hqr]
              exact forwardOk_rank_le hf
          · refine ⟨r, ?_, le_refl _⟩
            have hne : (casResultRecord q (op.2.2 q)).id ≠ i := by
              show q.id ≠ i
              rw [hqid]; exact hii
            simp only [hv, hf, ite_not, if_false, if_true, ite_true,
              not_false_eq_true]
            rw [get_update_ne s _ i hne]
            exact h
        · exact ⟨r, by simp [hv, hf, h], le_refl _⟩

lemma applyOps_rank_mono : ∀ (ops : List CasOp) (s : RecordStore)
    (i : String) (r : Record), RecordStore.get s i = some r →
    ∃ r', RecordStore.get (applyOps s ops) i = some r' ∧
      Status.rank r.status ≤ Status.rank r'.status := by
  intro ops
  induction ops with
  | nil => intro s i r h; exact ⟨r, h, le_refl _⟩
  | cons op rest ih =>
      intro s i r h
      obtain ⟨r1, h1, hle1⟩ := cas_get_mono s op i r h
      obtain ⟨r2, h2, hle2⟩ := ih (casFst s op) i r1 h1
      exact ⟨r2, by simpa [applyOps] using h2, le_trans hle1 hle2⟩

/-- Claim C5: a record status only moves forward along
Created → VerificationPending → Verified.  Every accepted compare-and-set
produces a forward-only transition that advances the status by at most
one stage; an attempt whose requested transition is not forward-only
fails and leaves the store entirely unchanged; over any sequence of
attempted mutations the status rank of a record never decreases. -/
theorem claim5_forward_only :
    (∀ (s : RecordStore) (i : String) (ev : Nat)
        (m : Record → Status × Option Nat) (r r' : Record),
        RecordStore.get s i = some r →
        (RecordStore.compareAndSet s i ev m).2 = Except.ok r' →
        forwardOk r.status r'.status = true ∧
        Status.rank r'.status ≤ Status.rank r.status + 1) ∧
    (∀ (s : RecordStore) (i : String) (ev : Nat)
        (m : Record → Status × Option Nat) (r : Record),
        RecordStore.get s i = some r →
        forwardOk r.status (m r).fst = false →
        (RecordStore.compareAndSet s i ev m).1 = s ∧
        ∃ e, (RecordStore.compareAndSet s i ev m).2 = Except.error e) ∧
    (∀ (s : RecordStore) (ops : List CasOp) (i : String) (r : Record),
        RecordStore.get s i = some r →
        ∃ r', RecordStore.get (applyOps s ops) i = some r' ∧
          Status.rank r.status ≤ Status.rank r'.status) := by
  refine ⟨?_, ?_, ?_⟩
  · intro s i ev m r r' hget hok
    unfold RecordStore.compareAndSet at hok
    rw [hget] at hok
    by_cases hv : r.version ≠ ev
    · simp [hv] at hok
    · by_cases hf : forwardOk r.status (m r).fst = true
      · simp [hv, hf] at hok
        constructor
        · rw [← hok]; exact hf
        · rw [← hok]
          exact forwardOk_rank_succ hf
      · simp [hv, hf] at hok
  · intro s i ev m r hget hbad
    unfold RecordStore.compareAndSet
    rw [hget]
    by_cases hv : r.version ≠ ev
    · exact ⟨by simp [hv], CasError.VersionConflict r, by simp [hv]⟩
    · exact ⟨by simp [hv, hbad], CasError.InvalidTransition r,
        by simp [hv, hbad]⟩
  · intro s ops i r h
    exact applyOps_rank_mono ops s i r h

/-- Claim C6: a compare-and-set with a stale expected version is rejected
with VersionConflict and the store is unchanged; every accepted mutation
increments the record version by exactly 1. -/
theorem claim6_stale_cas :
    (∀ (s : RecordStore) (i : String) (ev : Nat)
        (m : Record → Status × Option Nat) (r : Record),
        RecordStore.get s i = some r →
        r.version ≠ ev →
        RecordStore.compareAndSet s i ev m =
          (s, Except.error (CasError.VersionConflict r))) ∧
    (∀ (s : RecordStore) (i : String) (ev : Nat)
        (m : Record → Status × Option Nat) (r r' : Record),
        RecordStore.get s i = some r →
        (RecordStore.compareAndSet s i ev m).2 = Except.ok r' →
        r'.version = r.version + 1) := by
  constructor
  · intro s i ev m r hget hv
    unfold RecordStore.compareAndSet
    rw [hget]
    simp [hv]
  · intro s i ev m r r' hget hok
    unfold RecordStore.compareAndSet at hok
    rw [hget] at hok
    by_cases hv : r.version ≠ ev
    · simp [hv] at hok
    · by_cases hf : forwardOk r.status (m r).fst = true
      · simp [hv, hf] at hok
        rw [← hok]
        rfl
      · simp [hv, hf] at hok

/-- A demonstration record for witnesses. -/
def demoRec : Record :=
  { id := "r1", creator := "0xowner", name := "Widget",
    description := "demo", publicValue1 := 1, publicValue2 := 0,
    ciphertextHandle := 7, status := Status.Created,
    clearValue := none, version := 0, createdAt := 0 }

/-- A demonstration store holding one record. -/
def demoStore : RecordStore := [demoRec]

/-- A mutation attempting to skip from Created directly to Verified. -/
def demoMutSkip : Record → Status × Option Nat :=
  fun _ => (Status.Verified, some 9)

/-- A mutation advancing one stage to VerificationPending. -/
def demoMutPending : Record → Status × Option Nat :=
  fun r => (Status.VerificationPending, r.clearValue)

theorem claim5_forward_only_witness :
    (RecordStore.compareAndSet demoStore "r1" 0 demoMutSkip).1 = demoStore ∧
    ∃ e, (RecordStore.compareAndSet demoStore "r1" 0 demoMutSkip).2 =
      Except.error e :=
  claim5_forward_only.2.1 demoStore "r1" 0 demoMutSkip demoRec
    (by decide) (by decide)

theorem claim6_stale_cas_witness :
    RecordStore.compareAndSet demoStore "r1" 5 demoMutPending =
      (demoStore, Except.error (CasError.VersionConflict demoRec)) :=
  claim6_stale_cas.1 demoStore "r1" 5 demoMutPending demoRec
    (by decide) (by decide)

/-- Decidable equality for Except results, used to evaluate witnesses. -/
instance {ε α : Type} [DecidableEq ε] [DecidableEq α] :
    DecidableEq (Except ε α) := fun a b =>
  match a, b with
  | Except.ok x, Except.ok y =>
      if h : x = y then Decidable.isTrue (by rw [h])
      else Decidable.isFalse (by intro hc; cases hc; exact h rfl)
  | Except.error x, Except.error y =>
      if h : x = y then Decidable.isTrue (by rw [h])
      else Decidable.isFalse (by intro hc; cases hc; exact h rfl)
  | Except.ok _, Except.error _ =>
      Decidable.isFalse (by intro hc; cases hc)
  | Except.error _, Except.ok _ =>
      Decidable.isFalse (by intro hc; cases hc)

/-- Modelled from the spec: failure modes of the confidential-compute
provider (§4.2, §7). -/
inductive ProviderError where
  | EncryptionError
  | DecryptionError
  deriving DecidableEq, Repr

/-- Modelled from the spec: the representable domain of the provider is a
non-negative bounded integer (§4.4); the bound of an unsigned 64-bit
FHE integer. -/
def providerBound : Nat := 2 ^ 64

/-- Modelled from the spec: the ConfidentialComputeProvider of §4.2, a
handle table standing for the opaque encryption capability. -/
structure Provider where
  nextHandle : Nat
  table : List (Nat × Nat)
  deriving DecidableEq, Repr

/-- Association lookup in the provider handle table. -/
def lookupHandle : List (Nat × Nat) → Nat → Option Nat
  | [], _ => none
  | (h, v) :: rest, k => if h = k then some v else lookupHandle rest k

/-- Modelled from the spec: encrypt of §4.2 — deterministic failure on a
value outside the representable domain, otherwise a fresh handle
resolvable later for decryption. -/
def Provider.encrypt (p : Provider) (value : Int) :
    Provider × Except ProviderError Nat :=
  if 0 ≤ value ∧ value < (providerBound : Int) then
    ({ nextHandle := p.nextHandle + 1,
       table := (p.nextHandle, value.toNat) :: p.table },
     Except.ok p.nextHandle)
  else
    (p, Except.error ProviderError.EncryptionError)

/-- Modelled from the spec: requestClearValue of §4.2 — resolves a
ciphertext handle to its clear value, failing if the handle is unknown. -/
def Provider.requestClearValue (p : Provider) (h : Nat) :
    Except ProviderError Nat :=
  match lookupHandle p.table h with
  | some v => Except.ok v
  | none => Except.error ProviderError.DecryptionError

/-- The on-chain state the frontend talks to: the versioned record store
together with the confidential-compute provider. -/
structure ChainState where
  records : RecordStore
  provider : Provider
  deriving DecidableEq, Repr

/-- Modelled from the spec: the contract getter getBusinessData used by
App.tsx; reverts when the id is unknown. -/
def ChainState.getBusinessData (c : ChainState) (i : String) :
    Except String Record :=
  match RecordStore.get c.records i with
  | some r => Except.ok r
  | none => Except.error "Business data not found"

/-- Modelled from the spec: the contract getter getEncryptedValue used by
App.tsx; returns the ciphertext handle of a record. -/
def ChainState.getEncryptedValue (c : ChainState) (i : String) :
    Except String Nat :=
  match RecordStore.get c.records i with
  | some r => Except.ok r.ciphertextHandle
  | none => Except.error "Business data not found"

/-- Modelled from the spec: the contract getter getAllBusinessIds used by
App.tsx. -/
def ChainState.getAllBusinessIds (c : ChainState) : List String :=
  c.records.map (fun r => r.id)

/-- Modelled from the spec: the contract entry point verifyDecryption
used by App.tsx — the commit of §4.3: rejects an already Verified record
with the string revert noted in §9, rejects an invalid proof, and
otherwise advances the record forward-only through VerificationPending
to Verified via compare-and-set, storing the clear value. -/
def ChainState.verifyDecryption (c : ChainState) (i : String)
    (clearValue : Nat) (proofOk : Bool) : ChainState × Except String Unit :=
  match RecordStore.get c.records i with
  | none => (c, Except.error "Business data not found")
  | some r =>
      if r.status = Status.Verified then
        (c, Except.error "Data already verified")
      else if proofOk = false then
        (c, Except.error "Invalid decryption proof")
      else
        let s1 :=
          if r.status = Status.Created then
            (RecordStore.compareAndSet c.records i r.version
              (fun rr => (Status.VerificationPending, rr.clearValue))).1
          else c.records
        match RecordStore.get s1 i with
        | none => (c, Except.error "Business data not found")
        | some r1 =>
            match RecordStore.compareAndSet s1 i r1.version
                (fun _ => (Status.Verified, some clearValue)) with
            | (s2, Except.ok _) =>
                ({ records := s2, provider := c.provider }, Except.ok ())
            | (_, Except.error _) =>
                (c, Except.error "Verification commit failed")

/-- The new-item form state of App.tsx. -/
structure NewItemData where
  name : String
  value : String
  description : String
  location : String
  status : String
  deriving DecidableEq, Repr

/-- The list projection the dashboard renders, from the SupplyChainItem
interface of App.tsx. -/
structure SupplyChainItem where
  id : String
  name : String
  encryptedValue : String
  publicValue1 : Nat
  publicValue2 : Nat
  description : String
  creator : String
  timestamp : Nat
  isVerified : Bool
  decryptedValue : Nat
  location : String
  status : String
  deriving DecidableEq, Repr

/-- Observable effects of a frontend call: toasts shown, contract reads
and writes issued, decryption requests sent to the provider. -/
inductive Eff where
  | toastPending (msg : String)
  | toastOk (msg : String)
  | toastErr (msg : String)
  | chainRead
  | chainWrite
  | decryptRequest
  deriving DecidableEq, Repr

/-- Whitespace test used by the JavaScript parseInt model. -/
def isSpaceChar (ch : Char) : Bool :=
  (ch == ' ') || (ch == '\t') || (ch == '\n') || (ch == '\r')

/-- Decimal value of a digit list. -/
def digitsToNat (cs : List Char) : Nat :=
  cs.foldl (fun a c => a * 10 + (c.toNat - 48)) 0

/-- The JavaScript parseInt coercion used by createSupplyChainItem in
App.tsx: skip leading whitespace, accept an optional sign, read leading
decimal digits; none models NaN. -/
def jsParseInt (s : String) : Option Int :=
  match s.toList.dropWhile isSpaceChar with
  | '-' :: rest =>
      let ds := rest.takeWhile Char.isDigit
      if ds.isEmpty then none else some (-(digitsToNat ds : Int))
  | '+' :: rest =>
      let ds := rest.takeWhile Char.isDigit
      if ds.isEmpty then none else some ((digitsToNat ds : Int))
  | rest =>
      let ds := rest.takeWhile Char.isDigit
      if ds.isEmpty then none else some ((digitsToNat ds : Int))

/-- The value-field sanitation of CreateItemModal.handleChange in
App.tsx: strip every non-digit character. -/
def sanitizeValueInput (s : String) : String :=
  String.mk (s.toList.filter Char.isDigit)

/-- Lifecycle tag sent on creation, from createSupplyChainItem in
App.tsx: manufactured maps to 1, in_transit to 2, anything else to 3. -/
def tagOfStatus (s : String) : Nat :=
  if s = "manufactured" then 1 else if s = "in_transit" then 2 else 3

/-- Embedding of createSupplyChainItem from App.tsx: guard on wallet
connection, coerce the form value with parseInt(...) or 0, generate the
id from the clock, encrypt, then create the business record on chain;
returns the new chain state, the observable effects, and whether the
submission succeeded. -/
def createSupplyChainItem (connected : Bool) (address : Option String)
    (c : ChainState) (item : NewItemData) (now : Nat) :
    ChainState × List Eff × Bool :=
  match connected, address with
  | true, some addr =>
      let itemValue : Int := (jsParseInt item.value).getD 0
      let businessId := "item-" ++ toString now
      match Provider.encrypt c.provider itemValue with
      | (_, Except.error _) =>
          (c, [Eff.toastPending "Creating supply chain item with FHE encryption...",
               Eff.toastErr "Submission failed: encryption error"], false)
      | (p1, Except.ok handle) =>
          let newRec : Record :=
            { id := businessId, creator := addr, name := item.name,
              description := item.description,
              publicValue1 := tagOfStatus item.status, publicValue2 := 0,
              ciphertextHandle := handle, status := Status.Created,
              clearValue := none, version := 0, createdAt := now }
          match RecordStore.insert c.records newRec with
          | (_, Except.error _) =>
              ({ records := c.records, provider := p1 },
               [Eff.toastPending "Creating supply chain item with FHE encryption...",
                Eff.chainWrite,
                Eff.toastErr "Submission failed: id collision"], false)
          | (rs1, Except.ok _) =>
              ({ records := rs1, provider := p1 },
               [Eff.toastPending "Creating supply chain item with FHE encryption...",
                Eff.chainWrite,
                Eff.toastOk "Supply chain item created successfully!",
                Eff.chainRead], true)
  | _, _ => (c, [Eff.toastErr "Please connect wallet first"], false)

/-- Substring test on character lists, for the string matching on error
messages in the catch branch of decryptItemData. -/
def hasSubList : List Char → List Char → Bool
  | p, [] => p.isEmpty
  | p, c :: rest => p.isPrefixOf (c :: rest) || hasSubList p rest

/-- The JavaScript message.includes check of App.tsx. -/
def hasSubstr (p s : String) : Bool :=
  hasSubList p.toList s.toList

/-- Embedding of decryptItemData from App.tsx: guard on wallet
connection; read the record and short-circuit with the stored value when
it is already verified; otherwise fetch the ciphertext handle, request
decryption from the provider, and submit verifyDecryption on chain.  The
interfere argument is the activity of concurrent callers during the
decryption round trip, the only suspension point.  A revert whose
message includes the text Data already verified is treated as a success
toast and the call returns none, any other failure shows an error toast
and returns none. -/
def decryptItemData (connected : Bool) (address : Option String)
    (c : ChainState) (interfere : ChainState → ChainState)
    (businessId : String) : ChainState × List Eff × Option Nat :=
  match connected, address with
  | true, some _ =>
      match ChainState.getBusinessData c businessId with
      | Except.error msg =>
          (c, [Eff.chainRead,
               Eff.toastErr ("Decryption failed: " ++ msg)], none)
      | Except.ok bd =>
          if bd.status = Status.Verified then
            (c, [Eff.chainRead,
                 Eff.toastOk "Data already verified on-chain"],
             some (bd.clearValue.getD 0))
          else
            match ChainState.getEncryptedValue c businessId with
            | Except.error msg =>
                (c, [Eff.chainRead, Eff.chainRead,
                     Eff.toastErr ("Decryption failed: " ++ msg)], none)
            | Except.ok handle =>
                let c2 := interfere c
                match Provider.requestClearValue c2.provider handle with
                | Except.error _ =>
                    (c2, [Eff.chainRead, Eff.chainRead, Eff.decryptRequest,
                          Eff.toastErr "Decryption failed: provider error"],
                     none)
                | Except.ok v =>
                    match ChainState.verifyDecryption c2 businessId v true with
                    | (c3, Except.ok _) =>
                        (c3, [Eff.chainRead, Eff.chainRead,
                              Eff.decryptRequest, Eff.chainWrite,
                              Eff.chainRead,
                              Eff.toastOk "Data decrypted and verified successfully!"],
                         some v)
                    | (c3, Except.error msg) =>
                        if hasSubstr "Data already verified" msg then
                          (c3, [Eff.chainRead, Eff.chainRead,
                                Eff.decryptRequest, Eff.chainWrite,
                                Eff.toastOk "Data is already verified on-chain",
                                Eff.chainRead], none)
                        else
                          (c3, [Eff.chainRead, Eff.chainRead,
                                Eff.decryptRequest, Eff.chainWrite,
                                Eff.toastErr ("Decryption failed: " ++ msg)],
                           none)
  | _, _ => (c, [Eff.toastErr "Please connect wallet first"], none)

/-- Iterated calls to decryptItemData, returning the chain state and the
value of the last call. -/
def decryptLoop (connected : Bool) (address : Option String)
    (interfere : ChainState → ChainState) (businessId : String) :
    Nat → ChainState → ChainState × Option Nat
  | 0, c => (c, none)
  | Nat.succ Nat.zero, c =>
      let out := decryptItemData connected address c interfere businessId
      (out.1, out.2.2)
  | Nat.succ (Nat.succ n), c =>
      let out := decryptItemData connected address c interfere businessId
      decryptLoop connected address interfere businessId (Nat.succ n) out.1

/-- Embedding of loadSupplyChainData from App.tsx: project every stored
business record into a SupplyChainItem, skipping records whose read
fails; location and status are the hard-coded constants of the source. -/
def loadSupplyChainData (c : ChainState) : List SupplyChainItem :=
  (ChainState.getAllBusinessIds c).filterMap (fun bid =>
    match ChainState.getBusinessData c bid with
    | Except.error _ => none
    | Except.ok bd =>
        some { id := bid, name := bd.name, encryptedValue := bid,
               publicValue1 := bd.publicValue1,
               publicValue2 := bd.publicValue2,
               description := bd.description, creator := bd.creator,
               timestamp := bd.createdAt,
               isVerified := bd.status == Status.Verified,
               decryptedValue := bd.clearValue.getD 0,
               location := "Warehouse A", status := "in_transit" })

/-- A demonstration chain state: one Created record, its handle resolving
to 42 in the provider table. -/
def demoChain : ChainState :=
  { records := demoStore, provider := { nextHandle := 8, table := [(7, 42)] } }

/-- A demonstration record that is already Verified with clear value 42. -/
def verRec : Record :=
  { id := "v1", creator := "0xowner", name := "Gadget",
    description := "verified demo", publicValue1 := 2, publicValue2 := 0,
    ciphertextHandle := 7, status := Status.Verified,
    clearValue := some 42, version := 2, createdAt := 0 }

/-- A demonstration chain state holding the already Verified record. -/
def verChain : ChainState :=
  { records := [verRec], provider := { nextHandle := 8, table := [(7, 42)] } }

/-- Claim C10: with no wallet connection or no caller address,
decryptItemData returns none, leaves the chain untouched, performs no
contract read or write and no decryption request; the only effect is a
transient error toast. -/
theorem claim10_wallet_guard (connected : Bool) (address : Option String)
    (c : ChainState) (interfere : ChainState → ChainState) (bid : String)
    (h : connected = false ∨ address = none) :
    decryptItemData connected address c interfere bid =
      (c, [Eff.toastErr "Please connect wallet first"], none) ∧
    Eff.chainRead ∉ (decryptItemData connected address c interfere bid).2.1 ∧
    Eff.chainWrite ∉ (decryptItemData connected address c interfere bid).2.1 ∧
    Eff.decryptRequest ∉
      (decryptItemData connected address c interfere bid).2.1 := by
  have heq : decryptItemData connected address c interfere bid =
      (c, [Eff.toastErr "Please connect wallet first"], none) := by
    rcases h with h | h
    · subst h; cases address <;> rfl
    · subst h; cases connected <;> rfl
  refine ⟨heq, ?_, ?_, ?_⟩ <;> rw [heq] <;> simp

theorem claim10_wallet_guard_witness :
    decryptItemData false none demoChain (fun x => x) "r1" =
      (demoChain, [Eff.toastErr "Please connect wallet first"], none) ∧
    Eff.chainRead ∉ (decryptItemData false none demoChain (fun x => x) "r1").2.1 ∧
    Eff.chainWrite ∉ (decryptItemData false none demoChain (fun x => x) "r1").2.1 ∧
    Eff.decryptRequest ∉
      (decryptItemData false none demoChain (fun x => x) "r1").2.1 :=
  claim10_wallet_guard false none demoChain (fun x => x) "r1" (Or.inl rfl)

/-- Claim C9: every item produced by the loadSupplyChainData projection
carries the constant location Warehouse A and the constant status string
in_transit, while the stored lifecycle tag is surfaced through
publicValue1. -/
theorem claim9_constant_projection (c : ChainState) (it : SupplyChainItem)
    (h : it ∈ loadSupplyChainData c) :
    it.location = "Warehouse A" ∧ it.status = "in_transit" ∧
    ∃ r, RecordStore.get c.records it.id = some r ∧
      it.publicValue1 = r.publicValue1 := by
  unfold loadSupplyChainData at h
  rw [List.mem_filterMap] at h
  obtain ⟨bid, _, hf⟩ := h
  cases hbd : ChainState.getBusinessData c bid with
  | error msg => rw [hbd] at hf; simp at hf
  | ok bd =>
      rw [hbd] at hf
      simp only [Option.some.injEq] at hf
      subst hf
      refine ⟨rfl, rfl, bd, ?_, rfl⟩
      unfold ChainState.getBusinessData at hbd
      cases hg : RecordStore.get c.records bid with
      | none => rw [hg] at hbd; simp at hbd
      | some rr =>
          rw [hg] at hbd
          simp only [Except.ok.injEq] at hbd
          rw [hbd]

theorem claim9_constant_projection_witness :
    ({ id := "r1", name := "Widget", encryptedValue := "r1",
       publicValue1 := 1, publicValue2 := 0, description := "demo",
       creator := "0xowner", timestamp := 0, isVerified := false,
       decryptedValue := 0, location := "Warehouse A",
       status := "in_transit" } : SupplyChainItem).location = "Warehouse A" ∧
    ({ id := "r1", name := "Widget", encryptedValue := "r1",
       publicValue1 := 1, publicValue2 := 0, description := "demo",
       creator := "0xowner", timestamp := 0, isVerified := false,
       decryptedValue := 0, location := "Warehouse A",
       status := "in_transit" } : SupplyChainItem).status = "in_transit" ∧
    ∃ r, RecordStore.get demoChain.records "r1" = some r ∧
      ({ id := "r1", name := "Widget", encryptedValue := "r1",
         publicValue1 := 1, publicValue2 := 0, description := "demo",
         creator := "0xowner", timestamp := 0, isVerified := false,
         decryptedValue := 0, location := "Warehouse A",
         status := "in_transit" } : SupplyChainItem).publicValue1 =
        r.publicValue1 :=
  claim9_constant_projection demoChain _ (by decide)

/-- Claim C2: on a record that is already Verified, decryptItemData
returns the stored clear value immediately, leaves the chain state (and
hence the record version) unchanged, issues no decryption request, and
repeating the call any number of times after the first success returns
the identical value with the chain still unchanged. -/
theorem claim2_idempotent_short_circuit (c : ChainState)
    (interfere : ChainState → ChainState) (a bid : String) (r : Record)
    (v : Nat) (n : Nat)
    (hget : RecordStore.get c.records bid = some r)
    (hst : r.status = Status.Verified)
    (hcv : r.clearValue = some v) :
    decryptItemData true (some a) c interfere bid =
      (c, [Eff.chainRead, Eff.toastOk "Data already verified on-chain"],
        some v) ∧
    Eff.decryptRequest ∉
      (decryptItemData true (some a) c interfere bid).2.1 ∧
    decryptLoop true (some a) interfere bid (n + 1) c = (c, some v) := by
  have heq : decryptItemData true (some a) c interfere bid =
      (c, [Eff.chainRead, Eff.toastOk "Data already verified on-chain"],
        some v) := by
    unfold decryptItemData ChainState.getBusinessData
    simp [hget, hst, hcv]
  refine ⟨heq, by rw [heq]; simp, ?_⟩
  induction n with
  | zero => simp [decryptLoop, heq]
  | succ m ih =>
      show decryptLoop true (some a) interfere bid (Nat.succ (Nat.succ m)) c =
        (c, some v)
      unfold decryptLoop
      rw [heq]
      exact ih

theorem claim2_idempotent_short_circuit_witness :
    decryptItemData true (some "0xabc") verChain (fun x => x) "v1" =
      (verChain,
       [Eff.chainRead, Eff.toastOk "Data already verified on-chain"],
       some 42) ∧
    Eff.decryptRequest ∉
      (decryptItemData true (some "0xabc") verChain (fun x => x) "v1").2.1 ∧
    decryptLoop true (some "0xabc") (fun x => x) "v1" 3 verChain =
      (verChain, some 42) :=
  claim2_idempotent_short_circuit verChain (fun x => x) "0xabc" "v1"
    verRec 42 2 (by decide) (by decide) (by decide)

lemma verifyDecryption_created (c : ChainState) (i : String) (r : Record)
    (w : Nat)
    (hget : RecordStore.get c.records i = some r)
    (hcr : r.status = Status.Created) :
    ChainState.verifyDecryption c i w true =
      ({ records := updateRecord (updateRecord c.records
            (casResultRecord r (Status.VerificationPending, r.clearValue)))
            (casResultRecord
              (casResultRecord r (Status.VerificationPending, r.clearValue))
              (Status.Verified, some w)),
         provider := c.provider }, Except.ok ()) := by
  have hrid : r.id = i := get_some_id c.records i r hget
  have hcas1 : RecordStore.compareAndSet c.records i r.version
      (fun rr => (Status.VerificationPending, rr.clearValue)) =
      (updateRecord c.records
        (casResultRecord r (Status.VerificationPending, r.clearValue)),
       Except.ok (casResultRecord r (Status.VerificationPending, r.clearValue))) := by
    unfold RecordStore.compareAndSet
    rw [hget]
    simp [hcr, forwardOk]
  have hbase : RecordStore.get c.records
      (casResultRecord r (Status.VerificationPending, r.clearValue)).id =
      some r := by
    show RecordStore.get c.records r.id = some r
    rw [hrid]; exact hget
  have hgetP : RecordStore.get (updateRecord c.records
      (casResultRecord r (Status.VerificationPending, r.clearValue))) i =
      some (casResultRecord r (Status.VerificationPending, r.clearValue)) := by
    have h2 := get_update_of_get c.records r
      (casResultRecord r (Status.VerificationPending, r.clearValue)) hbase
    have hpid : (casResultRecord r
        (Status.VerificationPending, r.clearValue)).id = i := hrid
    rw [hpid] at h2
    exact h2
  have hcas2 : RecordStore.compareAndSet
      (updateRecord c.records
        (casResultRecord r (Status.VerificationPending, r.clearValue))) i
      (casResultRecord r (Status.VerificationPending, r.clearValue)).version
      (fun _ => (Status.Verified, some w)) =
      (updateRecord (updateRecord c.records
          (casResultRecord r (Status.VerificationPending, r.clearValue)))
          (casResultRecord
            (casResultRecord r (Status.VerificationPending, r.clearValue))
            (Status.Verified, some w)),
       Except.ok (casResultRecord
          (casResultRecord r (Status.VerificationPending, r.clearValue))
          (Status.Verified, some w))) := by
    unfold RecordStore.compareAndSet
    rw [hgetP]
    simp [casResultRecord, forwardOk]
  have hnv : ¬ (r.status = Status.Verified) := by rw [hcr]; decide
  unfold ChainState.verifyDecryption
  rw [hget]
  dsimp only
  rw [if_neg hnv, if_neg (show ¬ (true = false) by decide), if_pos hcr,
    hcas1]
  dsimp only
  rw [hgetP]
  dsimp only
  rw [hcas2]

lemma decryptItemData_success (c : ChainState)
    (interfere : ChainState → ChainState) (a bid : String) (r : Record)
    (w : Nat) (c' : ChainState)
    (hget : RecordStore.get c.records bid = some r)
    (hnv : r.status ≠ Status.Verified)
    (hdec : Provider.requestClearValue (interfere c).provider
      r.ciphertextHandle = Except.ok w)
    (hver : ChainState.verifyDecryption (interfere c) bid w true =
      (c', Except.ok ())) :
    decryptItemData true (some a) c interfere bid =
      (c', [Eff.chainRead, Eff.chainRead, Eff.decryptRequest, Eff.chainWrite,
            Eff.chainRead,
            Eff.toastOk "Data decrypted and verified successfully!"],
       some w) := by
  unfold decryptItemData ChainState.getBusinessData ChainState.getEncryptedValue
  rw [hget]
  dsimp only
  rw [if_neg hnv]
  rw [hdec]
  dsimp only
  rw [hver]

/-- Claim C1: the round trip — creating a record through
createSupplyChainItem with an in-domain secret value v and then running
the decryption-verification flow on the returned id yields exactly v. -/
theorem claim1_round_trip (c : ChainState) (a : String)
    (item : NewItemData) (now : Nat) (v : Nat)
    (hparse : jsParseInt item.value = some (v : Int))
    (hdom : v < providerBound)
    (hfresh : RecordStore.get c.records ("item-" ++ toString now) = none) :
    (createSupplyChainItem true (some a) c item now).2.2 = true ∧
    (decryptItemData true (some a)
        (createSupplyChainItem true (some a) c item now).1 (fun x => x)
        ("item-" ++ toString now)).2.2 = some v := by
  have henc : Provider.encrypt c.provider ((v : Nat) : Int) =
      ({ nextHandle := c.provider.nextHandle + 1,
         table := (c.provider.nextHandle, v) :: c.provider.table },
       Except.ok c.provider.nextHandle) := by
    unfold Provider.encrypt
    have h0 : (0 : Int) ≤ (v : Int) := Int.natCast_nonneg v
    have h1 : (v : Int) < (providerBound : Int) := by exact_mod_cast hdom
    simp [h0, h1]
  have hc1 : createSupplyChainItem true (some a) c item now =
      ({ records :=
          { id := "item-" ++ toString now, creator := a, name := item.name,
            description := item.description,
            publicValue1 := tagOfStatus item.status, publicValue2 := 0,
            ciphertextHandle := c.provider.nextHandle,
            status := Status.Created, clearValue := none, version := 0,
            createdAt := now } :: c.records,
         provider := { nextHandle := c.provider.nextHandle + 1,
                       table := (c.provider.nextHandle, v) ::
                         c.provider.table } },
       [Eff.toastPending "Creating supply chain item with FHE encryption...",
        Eff.chainWrite, Eff.toastOk "Supply chain item created successfully!",
        Eff.chainRead], true) := by
    have henc2 : Provider.encrypt c.provider
        ((some ((v : Nat) : Int)).getD 0) =
        ({ nextHandle := c.provider.nextHandle + 1,
           table := (c.provider.nextHandle, v) :: c.provider.table },
         Except.ok c.provider.nextHandle) := henc
    unfold createSupplyChainItem RecordStore.insert
    dsimp only
    rw [hparse, henc2]
    dsimp only
    rw [hfresh]
  refine ⟨by rw [hc1], ?_⟩
  have hgetNew : RecordStore.get
      (createSupplyChainItem true (some a) c item now).1.records
      ("item-" ++ toString now) =
      some { id := "item-" ++ toString now, creator := a, name := item.name,
             description := item.description,
             publicValue1 := tagOfStatus item.status, publicValue2 := 0,
             ciphertextHandle := c.provider.nextHandle,
             status := Status.Created, clearValue := none, version := 0,
             createdAt := now } := by
    rw [hc1]
    simp [RecordStore.get]
  have hdec : Provider.requestClearValue
      (createSupplyChainItem true (some a) c item now).1.provider
      c.provider.nextHandle = Except.ok v := by
    rw [hc1]
    simp [Provider.requestClearValue, lookupHandle]
  have hver := verifyDecryption_created
    (createSupplyChainItem true (some a) c item now).1
    ("item-" ++ toString now) _ v hgetNew rfl
  have := decryptItemData_success
    (createSupplyChainItem true (some a) c item now).1 (fun x => x) a
    ("item-" ++ toString now) _ v _ hgetNew
    (fun h => Status.noConfusion h) hdec hver
  rw [this]

/-- A fresh, empty chain state. -/
def emptyChain : ChainState :=
  { records := [], provider := { nextHandle := 0, table := [] } }

/-- Form data for the round-trip witness: secret value 42. -/
def demoNewItem : NewItemData :=
  { name := "Widget", value := "42", description := "demo",
    location := "", status := "manufactured" }

theorem claim1_round_trip_witness :
    (createSupplyChainItem true (some "0xabc") emptyChain demoNewItem 0).2.2 =
      true ∧
    (decryptItemData true (some "0xabc")
        (createSupplyChainItem true (some "0xabc") emptyChain demoNewItem 0).1
        (fun x => x) ("item-" ++ toString 0)).2.2 = some 42 :=
  claim1_round_trip emptyChain "0xabc" demoNewItem 0 42 (by decide)
    (by decide) (by decide)

/-- A concurrent caller that completes verification of record r1 first,
during the decryption round trip of the caller under test. -/
def raceFn : ChainState → ChainState :=
  fun c => (ChainState.verifyDecryption c "r1" 42 true).1

/-- Claim C3 counterexample: on the race where another caller commits
verification first, decryptItemData returns none — not the committed
clear value 42, which sits untouched in the store while a success toast
is shown.  The claim as stated, that the call returns the
already-committed clearValue, is false at this input. -/
theorem claim3_counterexample :
    (decryptItemData true (some "0xabc") demoChain raceFn "r1").2.2 = none ∧
    (RecordStore.get
        (decryptItemData true (some "0xabc") demoChain raceFn "r1").1.records
        "r1").map Record.clearValue = some (some 42) ∧
    Eff.toastOk "Data is already verified on-chain" ∈
      (decryptItemData true (some "0xabc") demoChain raceFn "r1").2.1 ∧
    (decryptItemData true (some "0xabc") demoChain raceFn "r1").2.2 ≠
      some 42 := by
  decide

/-- Claim C3 (amended): when the final commit loses because another
caller already completed verification, the call surfaces no error — it
shows the success toast, reloads the data, leaves the first committer's
record intact, and returns none (null) rather than the already-committed
clearValue. -/
theorem claim3_conflict_returns_null (c : ChainState)
    (interfere : ChainState → ChainState) (a bid : String) (r r2 : Record)
    (w : Nat)
    (hget : RecordStore.get c.records bid = some r)
    (hnv : r.status ≠ Status.Verified)
    (hdec : Provider.requestClearValue (interfere c).provider
      r.ciphertextHandle = Except.ok w)
    (hget2 : RecordStore.get (interfere c).records bid = some r2)
    (hver : r2.status = Status.Verified) :
    decryptItemData true (some a) c interfere bid =
      (interfere c,
       [Eff.chainRead, Eff.chainRead, Eff.decryptRequest, Eff.chainWrite,
        Eff.toastOk "Data is already verified on-chain", Eff.chainRead],
       none) ∧
    RecordStore.get
      (decryptItemData true (some a) c interfere bid).1.records bid =
      some r2 := by
  have hvd : ChainState.verifyDecryption (interfere c) bid w true =
      (interfere c, Except.error "Data already verified") := by
    unfold ChainState.verifyDecryption
    rw [hget2]
    dsimp only
    rw [if_pos hver]
  have heq : decryptItemData true (some a) c interfere bid =
      (interfere c,
       [Eff.chainRead, Eff.chainRead, Eff.decryptRequest, Eff.chainWrite,
        Eff.toastOk "Data is already verified on-chain", Eff.chainRead],
       none) := by
    unfold decryptItemData ChainState.getBusinessData
      ChainState.getEncryptedValue
    rw [hget]
    dsimp only
    rw [if_neg hnv]
    rw [hdec]
    dsimp only
    rw [hvd]
    dsimp only
    rw [if_pos (show hasSubstr "Data already verified"
      "Data already verified" = true by decide)]
  exact ⟨heq, by rw [heq]; exact hget2⟩

/-- The record of demoChain after the racing caller has committed. -/
def demoRecVerified : Record :=
  { demoRec with
    status := Status.Verified, clearValue := some 42, version := 2 }

theorem claim3_conflict_returns_null_witness :
    decryptItemData true (some "0xabc") demoChain raceFn "r1" =
      (raceFn demoChain,
       [Eff.chainRead, Eff.chainRead, Eff.decryptRequest, Eff.chainWrite,
        Eff.toastOk "Data is already verified on-chain", Eff.chainRead],
       none) ∧
    RecordStore.get
      (decryptItemData true (some "0xabc") demoChain raceFn "r1").1.records
      "r1" = some demoRecVerified :=
  claim3_conflict_returns_null demoChain raceFn "0xabc" "r1" demoRec
    demoRecVerified 42 (by decide) (by decide) (by decide) (by decide)
    (by decide)

/-- Form data whose value field is not a number. -/
def badItem : NewItemData :=
  { name := "Widget", value := "not-a-number", description := "",
    location := "", status := "manufactured" }

/-- Claim C4 counterexample: a malformed secret value does not fail with
any validation error — createSupplyChainItem succeeds and creates a
record whose ciphertext encrypts 0, because the source coerces the input
with parseInt(value) or 0.  The claim as stated, that every malformed
input fails with ValidationError rather than creating a record, is false
at this input. -/
theorem claim4_counterexample :
    (createSupplyChainItem true (some "0xabc") emptyChain badItem 5).2.2 =
      true ∧
    (RecordStore.get
        (createSupplyChainItem true (some "0xabc") emptyChain badItem
          5).1.records ("item-" ++ toString 5)).isSome = true ∧
    lookupHandle
      (createSupplyChainItem true (some "0xabc") emptyChain badItem
        5).1.provider.table 0 = some 0 := by
  decide

/-- Claim C4 (amended): create performs no domain validation and has no
ValidationError: the value is coerced with parseInt(value) or 0, so any
malformed (unparsable) value succeeds and creates a record whose
ciphertext encrypts 0; input sanitation happens only in the form, which
strips every non-digit character from the value field. -/
theorem claim4_no_validation (c : ChainState) (a : String)
    (item : NewItemData) (now : Nat)
    (hbad : jsParseInt item.value = none)
    (hfresh : RecordStore.get c.records ("item-" ++ toString now) = none) :
    (createSupplyChainItem true (some a) c item now).2.2 = true ∧
    RecordStore.get
      (createSupplyChainItem true (some a) c item now).1.records
      ("item-" ++ toString now) =
      some { id := "item-" ++ toString now, creator := a, name := item.name,
             description := item.description,
             publicValue1 := tagOfStatus item.status, publicValue2 := 0,
             ciphertextHandle := c.provider.nextHandle,
             status := Status.Created, clearValue := none, version := 0,
             createdAt := now } ∧
    lookupHandle
      (createSupplyChainItem true (some a) c item now).1.provider.table
      c.provider.nextHandle = some 0 ∧
    ∀ s : String, (sanitizeValueInput s).toList.all Char.isDigit = true := by
  have henc : Provider.encrypt c.provider 0 =
      ({ nextHandle := c.provider.nextHandle + 1,
         table := (c.provider.nextHandle, 0) :: c.provider.table },
       Except.ok c.provider.nextHandle) := by
    unfold Provider.encrypt
    rw [if_pos (show (0 : Int) ≤ 0 ∧ (0 : Int) < (providerBound : Int)
      by decide)]
    rfl
  have henc2 : Provider.encrypt c.provider ((none : Option Int).getD 0) =
      ({ nextHandle := c.provider.nextHandle + 1,
         table := (c.provider.nextHandle, 0) :: c.provider.table },
       Except.ok c.provider.nextHandle) := henc
  have hc1 : createSupplyChainItem true (some a) c item now =
      ({ records :=
          { id := "item-" ++ toString now, creator := a, name := item.name,
            description := item.description,
            publicValue1 := tagOfStatus item.status, publicValue2 := 0,
            ciphertextHandle := c.provider.nextHandle,
            status := Status.Created, clearValue := none, version := 0,
            createdAt := now } :: c.records,
         provider := { nextHandle := c.provider.nextHandle + 1,
                       table := (c.provider.nextHandle, 0) ::
                         c.provider.table } },
       [Eff.toastPending "Creating supply chain item with FHE encryption...",
        Eff.chainWrite, Eff.toastOk "Supply chain item created successfully!",
        Eff.chainRead], true) := by
    unfold createSupplyChainItem RecordStore.insert
    dsimp only
    rw [hbad, henc2]
    dsimp only
    rw [hfresh]
  refine ⟨by rw [hc1], by rw [hc1]; simp [RecordStore.get],
    by rw [hc1]; simp [lookupHandle], ?_⟩
  intro s
  have hmem : ∀ x ∈ (s.toList.filter Char.isDigit), Char.isDigit x = true :=
    fun x hx => (List.mem_filter.mp hx).2
  rw [show (sanitizeValueInput s).toList =
    s.toList.filter Char.isDigit from rfl]
  exact List.all_eq_true.mpr hmem

theorem claim4_no_validation_witness :
    (createSupplyChainItem true (some "0xabc") emptyChain badItem 5).2.2 =
      true ∧
    RecordStore.get
      (createSupplyChainItem true (some "0xabc") emptyChain badItem
        5).1.records ("item-" ++ toString 5) =
      some { id := "item-" ++ toString 5, creator := "0xabc",
             name := badItem.name, description := badItem.description,
             publicValue1 := tagOfStatus badItem.status, publicValue2 := 0,
             ciphertextHandle := emptyChain.provider.nextHandle,
             status := Status.Created, clearValue := none, version := 0,
             createdAt := 5 } ∧
    lookupHandle
      (createSupplyChainItem true (some "0xabc") emptyChain badItem
        5).1.provider.table emptyChain.provider.nextHandle = some 0 ∧
    ∀ s : String, (sanitizeValueInput s).toList.all Char.isDigit = true :=
  claim4_no_validation emptyChain "0xabc" badItem 5 (by decide) (by decide)

/-- A reader snapshot of a single record: the fields a verification
caller observes. -/
structure RecView where
  status : Status
  clearValue : Option Nat
  version : Nat
  deriving DecidableEq, Repr

/-- Modelled from the spec: the local state of one requestVerification
caller walking the protocol of §4.3 (read, short-circuit, CAS to
pending, decrypt, commit). -/
inductive CPhase where
  | start
  | got (snap : RecView)
  | decrypting (e : Nat)
  | committing (e : Nat) (v : Nat)
  | done (res : Nat)
  deriving DecidableEq, Repr

/-- The shared system: the record, the count of accepted
compare-and-set commits to Verified, and the callers. -/
structure VSys where
  store : RecView
  commits : Nat
  callers : List CPhase
  deriving DecidableEq, Repr

/-- Modelled from the spec: one protocol step of a single caller
(§4.3 steps 1–5) against the shared record, with the store's
compare-and-set acceptance rule of §4.1: a CAS is accepted exactly when
the expected version matches and the transition is forward-only.
The commit counter increments exactly on an accepted CAS to Verified. -/
inductive CallerStep (secret : Nat) :
    RecView → Nat → CPhase → RecView → Nat → CPhase → Prop where
  | read (r : RecView) (k : Nat) :
      CallerStep secret r k CPhase.start r k (CPhase.got r)
  | shortCircuit (r snap : RecView) (k v : Nat)
      (hs : snap.status = Status.Verified)
      (hv : snap.clearValue = some v) :
      CallerStep secret r k (CPhase.got snap) r k (CPhase.done v)
  | casPendingOk (r snap : RecView) (k : Nat)
      (hs : snap.status = Status.Created)
      (hacc : r.version = snap.version ∧
        forwardOk r.status Status.VerificationPending = true) :
      CallerStep secret r k (CPhase.got snap)
        ⟨Status.VerificationPending, r.clearValue, r.version + 1⟩ k
        (CPhase.decrypting (r.version + 1))
  | casPendingFail (r snap : RecView) (k : Nat)
      (hs : snap.status = Status.Created)
      (hrej : ¬ (r.version = snap.version ∧
        forwardOk r.status Status.VerificationPending = true)) :
      CallerStep secret r k (CPhase.got snap) r k (CPhase.got r)
  | joinPending (r snap : RecView) (k : Nat)
      (hs : snap.status = Status.VerificationPending) :
      CallerStep secret r k (CPhase.got snap) r k
        (CPhase.decrypting snap.version)
  | decryptDone (r : RecView) (k e : Nat) :
      CallerStep secret r k (CPhase.decrypting e) r k
        (CPhase.committing e secret)
  | commitOk (r : RecView) (k e v : Nat)
      (hacc : r.version = e ∧ forwardOk r.status Status.Verified = true) :
      CallerStep secret r k (CPhase.committing e v)
        ⟨Status.Verified, some v, r.version + 1⟩ (k + 1) (CPhase.done v)
  | commitConflictDone (r : RecView) (k e v w : Nat)
      (hrej : ¬ (r.version = e ∧ forwardOk r.status Status.Verified = true))
      (hs : r.status = Status.Verified) (hw : r.clearValue = some w) :
      CallerStep secret r k (CPhase.committing e v) r k (CPhase.done w)
  | commitConflictRetry (r : RecView) (k e v : Nat)
      (hrej : ¬ (r.version = e ∧ forwardOk r.status Status.Verified = true))
      (hs : r.status ≠ Status.Verified) :
      CallerStep secret r k (CPhase.committing e v) r k (CPhase.got r)

/-- Interleaving: some caller takes a protocol step. -/
inductive SysStep (secret : Nat) : VSys → VSys → Prop where
  | here (r r' : RecView) (k k' : Nat) (p p' : CPhase)
      (rest : List CPhase)
      (h : CallerStep secret r k p r' k' p') :
      SysStep secret ⟨r, k, p :: rest⟩ ⟨r', k', p' :: rest⟩
  | there (r r' : RecView) (k k' : Nat) (p : CPhase)
      (rest rest' : List CPhase)
      (h : SysStep secret ⟨r, k, rest⟩ ⟨r', k', rest'⟩) :
      SysStep secret ⟨r, k, p :: rest⟩ ⟨r', k', p :: rest'⟩

/-- The freshly created record view. -/
def canonCreated : RecView := ⟨Status.Created, none, 0⟩

/-- The record view after the accepted CAS to VerificationPending. -/
def canonPending : RecView := ⟨Status.VerificationPending, none, 1⟩

/-- The record view after the accepted commit to Verified. -/
def canonVerified (secret : Nat) : RecView :=
  ⟨Status.Verified, some secret, 2⟩

/-- M callers about to race on one freshly created record. -/
def initSys (m : Nat) : VSys :=
  ⟨canonCreated, 0, List.replicate m CPhase.start⟩

/-- Reachability under interleaved caller steps. -/
def Reaches (secret : Nat) : VSys → VSys → Prop :=
  Relation.ReflTransGen (SysStep secret)

/-- The record is always in one of its three canonical views, and the
commit counter is 1 exactly in the Verified view. -/
def recInv (secret : Nat) (r : RecView) (k : Nat) : Prop :=
  (r = canonCreated ∧ k = 0) ∨ (r = canonPending ∧ k = 0) ∨
  (r = canonVerified secret ∧ k = 1)

/-- What each caller phase guarantees about itself and the record. -/
def phaseInv (secret : Nat) (r : RecView) : CPhase → Prop
  | CPhase.start => True
  | CPhase.got snap =>
      (snap = canonCreated ∨ snap = canonPending ∨
        snap = canonVerified secret) ∧ snap.version ≤ r.version
  | CPhase.decrypting e => e = 1 ∧ 1 ≤ r.version
  | CPhase.committing e v => e = 1 ∧ v = secret ∧ 1 ≤ r.version
  | CPhase.done res => res = secret ∧ r.status = Status.Verified

/-- The system invariant. -/
def sysInv (secret : Nat) (s : VSys) : Prop :=
  recInv secret s.store s.commits ∧
  ∀ p ∈ s.callers, phaseInv secret s.store p

lemma recInv_version_eq0 {secret : Nat} {r : RecView} {k : Nat}
    (h : recInv secret r k) (hv : r.version = 0) :
    r = canonCreated ∧ k = 0 := by
  rcases h with ⟨rfl, rfl⟩ | ⟨rfl, rfl⟩ | ⟨rfl, rfl⟩ <;>
    simp_all [canonCreated, canonPending, canonVerified]

lemma recInv_version_eq1 {secret : Nat} {r : RecView} {k : Nat}
    (h : recInv secret r k) (hv : r.version = 1) :
    r = canonPending ∧ k = 0 := by
  rcases h with ⟨rfl, rfl⟩ | ⟨rfl, rfl⟩ | ⟨rfl, rfl⟩ <;>
    simp_all [canonCreated, canonPending, canonVerified]

lemma recInv_version_ge2 {secret : Nat} {r : RecView} {k : Nat}
    (h : recInv secret r k) (hv : 2 ≤ r.version) :
    r = canonVerified secret ∧ k = 1 := by
  rcases h with ⟨rfl, rfl⟩ | ⟨rfl, rfl⟩ | ⟨rfl, rfl⟩ <;>
    simp_all [canonCreated, canonPending, canonVerified]

lemma recInv_verified {secret : Nat} {r : RecView} {k : Nat}
    (h : recInv secret r k) (hs : r.status = Status.Verified) :
    r = canonVerified secret ∧ k = 1 := by
  rcases h with ⟨rfl, rfl⟩ | ⟨rfl, rfl⟩ | ⟨rfl, rfl⟩ <;>
    simp_all [canonCreated, canonPending, canonVerified]

lemma canon_of_status_created {secret : Nat} {snap : RecView}
    (hc : snap = canonCreated ∨ snap = canonPending ∨
      snap = canonVerified secret)
    (hs : snap.status = Status.Created) : snap = canonCreated := by
  rcases hc with rfl | rfl | rfl <;>
    simp_all [canonCreated, canonPending, canonVerified]

lemma canon_of_status_pending {secret : Nat} {snap : RecView}
    (hc : snap = canonCreated ∨ snap = canonPending ∨
      snap = canonVerified secret)
    (hs : snap.status = Status.VerificationPending) :
    snap = canonPending := by
  rcases hc with rfl | rfl | rfl <;>
    simp_all [canonCreated, canonPending, canonVerified]

lemma canon_of_status_verified {secret : Nat} {snap : RecView}
    (hc : snap = canonCreated ∨ snap = canonPending ∨
      snap = canonVerified secret)
    (hs : snap.status = Status.Verified) :
    snap = canonVerified secret := by
  rcases hc with rfl | rfl | rfl <;>
    simp_all [canonCreated, canonPending, canonVerified]

/-- The possible record transitions of one step. -/
def recChange (secret : Nat) (r r' : RecView) : Prop :=
  r' = r ∨ (r = canonCreated ∧ r' = canonPending) ∨
  (r = canonPending ∧ r' = canonVerified secret)

lemma phaseInv_mono {secret : Nat} {r r' : RecView} {p : CPhase}
    (h : phaseInv secret r p) (hch : recChange secret r r') :
    phaseInv secret r' p := by
  have hver : r.version ≤ r'.version ∧
      (r.status = Status.Verified → r' = r) := by
    rcases hch with rfl | ⟨rfl, rfl⟩ | ⟨rfl, rfl⟩ <;>
      simp_all [canonCreated, canonPending, canonVerified]
  cases p with
  | start => trivial
  | got snap => exact ⟨h.1, le_trans h.2 hver.1⟩
  | decrypting e => exact ⟨h.1, le_trans h.2 hver.1⟩
  | committing e v => exact ⟨h.1, h.2.1, le_trans h.2.2 hver.1⟩
  | done res =>
      have := hver.2 h.2
      rw [this]
      exact h

lemma callerStep_cases {secret : Nat} {r r' : RecView} {k k' : Nat}
    {p p' : CPhase}
    (hstep : CallerStep secret r k p r' k' p')
    (hrec : recInv secret r k) (hp : phaseInv secret r p) :
    recInv secret r' k' ∧ phaseInv secret r' p' ∧
      recChange secret r r' := by
  have hcanon : r = canonCreated ∨ r = canonPending ∨
      r = canonVerified secret := by
    rcases hrec with ⟨rfl, _⟩ | ⟨rfl, _⟩ | ⟨rfl, _⟩ <;> simp
  cases hstep with
  | read _ =>
      exact ⟨hrec, ⟨hcanon, le_refl _⟩, Or.inl rfl⟩
  | shortCircuit snap _ v hs hv =>
      have hsnap : snap = canonVerified secret :=
        canon_of_status_verified hp.1 hs
      have hvs : v = secret := by
        rw [hsnap] at hv
        simp [canonVerified] at hv
        omega
      have hrv : 2 ≤ r.version := by
        have h2 := hp.2
        rw [hsnap] at h2
        simpa [canonVerified] using h2
      have hr := recInv_version_ge2 hrec hrv
      refine ⟨hrec, ⟨hvs, ?_⟩, Or.inl rfl⟩
      rw [hr.1]
      rfl
  | casPendingOk snap _ hs hacc =>
      have hsnap : snap = canonCreated := canon_of_status_created hp.1 hs
      have hv0 : r.version = 0 := by
        rw [hacc.1, hsnap]
        rfl
      have hr := recInv_version_eq0 hrec hv0
      have hrC : r = canonCreated := hr.1
      refine ⟨?_, ⟨by rw [hv0],
        Nat.succ_le_succ (Nat.zero_le _)⟩, Or.inr (Or.inl ⟨hrC, ?_⟩)⟩
      · refine Or.inr (Or.inl ⟨?_, hr.2⟩)
        rw [hrC]
        rfl
      · rw [hrC]
        rfl
  | casPendingFail snap _ hs hrej =>
      exact ⟨hrec, ⟨hcanon, le_refl _⟩, Or.inl rfl⟩
  | joinPending snap _ hs =>
      have hsnap : snap = canonPending := canon_of_status_pending hp.1 hs
      have h1 : snap.version = 1 := by rw [hsnap]; rfl
      refine ⟨hrec, ⟨h1, ?_⟩, Or.inl rfl⟩
      have h2 := hp.2
      rw [h1] at h2
      exact h2
  | decryptDone _ e =>
      exact ⟨hrec, ⟨hp.1, rfl, hp.2⟩, Or.inl rfl⟩
  | commitOk _ e v hacc =>
      have hv1 : r.version = 1 := by rw [hacc.1]; exact hp.1
      have hr := recInv_version_eq1 hrec hv1
      have hrP : r = canonPending := hr.1
      have hvs : v = secret := hp.2.1
      refine ⟨?_, ⟨hvs, rfl⟩, Or.inr (Or.inr ⟨hrP, ?_⟩)⟩
      · refine Or.inr (Or.inr ⟨?_, by rw [hr.2]⟩)
        rw [hvs, hrP]
        rfl
      · rw [hvs, hrP]
        rfl
  | commitConflictDone _ e v w hrej hs hw =>
      have hr := recInv_verified hrec hs
      have hws : w = secret := by
        rw [hr.1] at hw
        simp [canonVerified] at hw
        omega
      exact ⟨hrec, ⟨hws, hs⟩, Or.inl rfl⟩
  | commitConflictRetry _ e v hrej hs =>
      exact ⟨hrec, ⟨hcanon, le_refl _⟩, Or.inl rfl⟩

lemma sysStep_inv_change {secret : Nat} {s s' : VSys}
    (h : SysStep secret s s') (hinv : sysInv secret s) :
    sysInv secret s' ∧ recChange secret s.store s'.store := by
  induction h with
  | here r r' k k' p p' rest hc =>
      obtain ⟨hrec, hall⟩ := hinv
      have hp := hall p (List.mem_cons_self _ _)
      obtain ⟨hrec', hp', hch⟩ := callerStep_cases hc hrec hp
      refine ⟨⟨hrec', ?_⟩, hch⟩
      intro q hq
      rcases List.mem_cons.mp hq with rfl | hq
      · exact hp'
      · exact phaseInv_mono (hall q (List.mem_cons_of_mem _ hq)) hch
  | there r r' k k' p rest rest' hsub ih =>
      obtain ⟨hrec, hall⟩ := hinv
      have hsubinv : sysInv secret ⟨r, k, rest⟩ :=
        ⟨hrec, fun q hq => hall q (List.mem_cons_of_mem _ hq)⟩
      obtain ⟨⟨hrec', hall'⟩, hch⟩ := ih hsubinv
      refine ⟨⟨hrec', ?_⟩, hch⟩
      intro q hq
      rcases List.mem_cons.mp hq with rfl | hq
      · exact phaseInv_mono (hall q (List.mem_cons_self _ _)) hch
      · exact hall' q hq

lemma initSys_inv (secret m : Nat) : sysInv secret (initSys m) := by
  refine ⟨Or.inl ⟨rfl, rfl⟩, ?_⟩
  intro p hp
  rw [List.eq_of_mem_replicate hp]
  trivial

lemma reaches_inv {secret m : Nat} {s : VSys}
    (h : Reaches secret (initSys m) s) : sysInv secret s := by
  induction h with
  | refl => exact initSys_inv secret m
  | tail _ hstep ih => exact (sysStep_inv_change hstep ih).1

lemma sysInv_reflTrans {secret : Nat} {s s' : VSys}
    (h : Relation.ReflTransGen (SysStep secret) s s')
    (hinv : sysInv secret s) : sysInv secret s' := by
  induction h with
  | refl => exact hinv
  | tail _ hstep ih => exact (sysStep_inv_change hstep ih).1

lemma verified_persists {secret : Nat} {s s' : VSys}
    (h : Relation.ReflTransGen (SysStep secret) s s')
    (hinv : sysInv secret s)
    (hv : s.store = canonVerified secret) :
    s'.store = canonVerified secret := by
  induction h with
  | refl => exact hv
  | tail hsteps hstep ih =>
      have hmid := ih
      have hinvmid := sysInv_reflTrans hsteps hinv
      have hch := (sysStep_inv_change hstep hinvmid).2
      rcases hch with heq | ⟨hc, _⟩ | ⟨hc, _⟩
      · rw [heq, hmid]
      · rw [hmid] at hc
        exact absurd hc (by simp [canonCreated, canonVerified])
      · rw [hmid] at hc
        exact absurd hc (by simp [canonPending, canonVerified])

lemma sysStep_length {secret : Nat} {s s' : VSys}
    (h : SysStep secret s s') :
    s'.callers.length = s.callers.length := by
  induction h with
  | here r r' k k' p p' rest hc => rfl
  | there r r' k k' p rest rest' hsub ih => simpa using ih

lemma reaches_length {secret : Nat} {s s' : VSys}
    (h : Relation.ReflTransGen (SysStep secret) s s') :
    s'.callers.length = s.callers.length := by
  induction h with
  | refl => rfl
  | tail _ hstep ih => rw [sysStep_length hstep, ih]

/-- Claim C7: at every reachable point of a record's lifetime, clearValue
is absent unless the status is Verified (in which case it holds the
decrypted secret), and once clearValue is set it is never changed by any
later step. -/
theorem claim7_clear_value_once (secret m : Nat) :
    (∀ s, Reaches secret (initSys m) s →
      (s.store.status ≠ Status.Verified → s.store.clearValue = none) ∧
      (s.store.status = Status.Verified →
        s.store.clearValue = some secret)) ∧
    (∀ s s' v, Reaches secret (initSys m) s →
      Relation.ReflTransGen (SysStep secret) s s' →
      s.store.clearValue = some v → s'.store.clearValue = some v) := by
  constructor
  · intro s hs
    have hinv := reaches_inv hs
    rcases hinv.1 with ⟨heq, _⟩ | ⟨heq, _⟩ | ⟨heq, _⟩ <;> rw [heq] <;>
      simp [canonCreated, canonPending, canonVerified]
  · intro s s' v hs hss hcv
    have hinv := reaches_inv hs
    have hver : s.store = canonVerified secret ∧ v = secret := by
      rcases hinv.1 with ⟨heq, _⟩ | ⟨heq, _⟩ | ⟨heq, _⟩ <;> rw [heq] at hcv <;>
        simp [canonCreated, canonPending, canonVerified] at hcv
      exact ⟨heq, hcv.symm⟩
    have hpers := verified_persists hss hinv hver.1
    rw [hpers, hver.2]
    rfl

/-- Claim C8: with M ≥ 1 callers racing on one freshly created record,
at most one compare-and-set to Verified is ever accepted, and in any
reachable state where every caller has finished, exactly one commit
happened, the record is Verified with the decrypted secret, and every
caller returned that same committed value. -/
theorem claim8_at_most_one_commit (secret m : Nat) (hm : 1 ≤ m) :
    (∀ s, Reaches secret (initSys m) s → s.commits ≤ 1) ∧
    (∀ s, Reaches secret (initSys m) s →
      (∀ p ∈ s.callers, ∃ res, p = CPhase.done res) →
      s.commits = 1 ∧ s.store.status = Status.Verified ∧
      s.store.clearValue = some secret ∧
      ∀ p ∈ s.callers, p = CPhase.done secret) := by
  constructor
  · intro s hs
    have hinv := reaches_inv hs
    rcases hinv.1 with ⟨_, hk⟩ | ⟨_, hk⟩ | ⟨_, hk⟩ <;> omega
  · intro s hs hdone
    have hinv := reaches_inv hs
    have hlen : s.callers.length = m := by
      have h1 := reaches_length hs
      simpa [initSys] using h1
    have hne : s.callers ≠ [] := by
      intro hcon
      rw [hcon] at hlen
      simp at hlen
      omega
    obtain ⟨p0, hp0⟩ := List.exists_mem_of_ne_nil s.callers hne
    obtain ⟨res0, hres0⟩ := hdone p0 hp0
    have hph0 := hinv.2 p0 hp0
    rw [hres0] at hph0
    have hverified : s.store.status = Status.Verified := hph0.2
    have hrec := recInv_verified hinv.1 hverified
    refine ⟨hrec.2, hverified, by rw [hrec.1]; rfl, ?_⟩
    intro p hp
    obtain ⟨res, hres⟩ := hdone p hp
    have hph := hinv.2 p hp
    rw [hres] at hph
    rw [hres, hph.1]

/-- The two-caller race: both read the fresh record. -/
def raceSys0 : VSys :=
  ⟨canonCreated, 0, [CPhase.got canonCreated, CPhase.got canonCreated]⟩

/-- Caller one has advanced the record to pending and decrypts. -/
def raceSys1 : VSys :=
  ⟨canonPending, 0, [CPhase.decrypting 1, CPhase.got canonCreated]⟩

/-- Caller one holds the decrypted value 42 and is about to commit. -/
def raceSys2 : VSys :=
  ⟨canonPending, 0, [CPhase.committing 1 42, CPhase.got canonCreated]⟩

/-- Caller one has committed: the only accepted CAS to Verified. -/
def raceSys3 : VSys :=
  ⟨canonVerified 42, 1, [CPhase.done 42, CPhase.got canonCreated]⟩

/-- Caller two lost its pending CAS and re-read the verified record. -/
def raceSys4 : VSys :=
  ⟨canonVerified 42, 1, [CPhase.done 42, CPhase.got (canonVerified 42)]⟩

/-- Both callers are done with the same committed value. -/
def raceSys5 : VSys :=
  ⟨canonVerified 42, 1, [CPhase.done 42, CPhase.done 42]⟩

lemma reach_raceSys3 : Reaches 42 (initSys 2) raceSys3 := by
  have h01 : SysStep 42 (initSys 2)
      ⟨canonCreated, 0, [CPhase.got canonCreated, CPhase.start]⟩ :=
    SysStep.here _ _ _ _ _ _ _ (CallerStep.read canonCreated 0)
  have h12 : SysStep 42
      ⟨canonCreated, 0, [CPhase.got canonCreated, CPhase.start]⟩ raceSys0 :=
    SysStep.there _ _ _ _ _ _ _
      (SysStep.here _ _ _ _ _ _ _ (CallerStep.read canonCreated 0))
  have h23 : SysStep 42 raceSys0 raceSys1 :=
    SysStep.here _ _ _ _ _ _ _
      (CallerStep.casPendingOk canonCreated canonCreated 0 rfl
        ⟨rfl, rfl⟩)
  have h34 : SysStep 42 raceSys1 raceSys2 :=
    SysStep.here _ _ _ _ _ _ _ (CallerStep.decryptDone canonPending 0 1)
  have h45 : SysStep 42 raceSys2 raceSys3 :=
    SysStep.here _ _ _ _ _ _ _
      (CallerStep.commitOk canonPending 0 1 42 ⟨rfl, rfl⟩)
  exact ((((Relation.ReflTransGen.single h01).tail h12).tail h23).tail
    h34).tail h45

lemma reach_raceSys3_raceSys5 :
    Relation.ReflTransGen (SysStep 42) raceSys3 raceSys5 := by
  have h56 : SysStep 42 raceSys3 raceSys4 :=
    SysStep.there _ _ _ _ _ _ _
      (SysStep.here _ _ _ _ _ _ _
        (CallerStep.casPendingFail (canonVerified 42) canonCreated 1 rfl
          (by decide)))
  have h67 : SysStep 42 raceSys4 raceSys5 :=
    SysStep.there _ _ _ _ _ _ _
      (SysStep.here _ _ _ _ _ _ _
        (CallerStep.shortCircuit (canonVerified 42) (canonVerified 42) 1
          42 rfl rfl))
  exact (Relation.ReflTransGen.single h56).tail h67

theorem claim7_clear_value_once_witness :
    raceSys5.store.clearValue = some 42 :=
  (claim7_clear_value_once 42 2).2 raceSys3 raceSys5 42 reach_raceSys3
    reach_raceSys3_raceSys5 (by decide)

theorem claim8_at_most_one_commit_witness :
    raceSys5.commits = 1 ∧ raceSys5.store.status = Status.Verified ∧
    raceSys5.store.clearValue = some 42 ∧
    ∀ p ∈ raceSys5.callers, p = CPhase.done 42 :=
  (claim8_at_most_one_commit 42 2 (by decide)).2 raceSys5
    (reach_raceSys3.trans reach_raceSys3_raceSys5)
    (by
      intro p hp
      simp [raceSys5] at hp
      rcases hp with rfl | rfl
      exact ⟨42, rfl⟩)

end SupplyProv
